import Mathlib

/-!
# Air Crashes Analysis — verification of the data-preparation and query engine

Shallow embedding of the pandas pipeline in `app.py`: a dataframe is a list of
named columns, a column is a list of optional cells.  Pure functions below
mirror the source's preprocessing (`preprocess_data`), filtering
(`filtered_df`), and the aggregation expressions (`value_counts`-based
rankings, the missing-value report, the summary metrics).  Library calls
(`fillna(method='ffill')`, `pd.to_datetime(..., errors='coerce')`,
`value_counts()`, `isnull().sum()`, `sort_values`) are modelled by their
documented pandas semantics; where those semantics leave behaviour
unspecified (the relative order of equal sort keys), the model fixes one
admissible outcome and the theorems avoid depending on the choice.
-/

/-- A cell value: the dataset's cells are integers (Year/Month/Day/Fatalities),
strings (Operator/Country/Location), or derived calendar dates. -/
inductive Val where
  | int (i : Int)
  | str (s : String)
  | date (y m d : Int)
deriving DecidableEq

/-- A cell: `none` models pandas NaN/NaT. -/
abbrev Cell := Option Val

/-- A column of the dataframe, in record order. -/
abbrev Col := List Cell

/-- A dataframe: named columns in column order. -/
abbrev Frame := List (String × Col)

/-- Column-presence test (`'X' in df.columns`). -/
def hasCol (f : Frame) (n : String) : Bool :=
  f.any (fun p => p.1 == n)

/-- Column access (`df['X']`); absent column yields the empty column. -/
def getCol (f : Frame) (n : String) : Col :=
  (f.lookup n).getD []

/-- Column assignment (`df['X'] = c`): replaces the column in place if present,
else appends it at the end, as pandas does. -/
def setCol (f : Frame) (n : String) (c : Col) : Frame :=
  if hasCol f n then f.map (fun p => if p.1 == n then (n, c) else p)
  else f ++ [(n, c)]

/-- Number of records (`len(df)`): the length of the frame's columns. -/
def nrows (f : Frame) : Nat :=
  match f with
  | [] => 0
  | p :: _ => p.2.length

/-- All columns have length `n` (a well-formed rectangular frame). -/
def WFrame (f : Frame) (n : Nat) : Prop :=
  ∀ p ∈ f, p.2.length = n

/-! ## Boolean-mask row selection (`df[mask]`) -/

/-- Keep the entries of a list selected by a boolean mask. -/
def maskList {α : Type} : List Bool → List α → List α
  | true :: m, x :: c => x :: maskList m c
  | false :: m, _ :: c => maskList m c
  | _, _ => []

/-- Apply a row mask to every column of a frame. -/
def maskFrame (f : Frame) (m : List Bool) : Frame :=
  f.map (fun p => (p.1, maskList m p.2))

/-! ## Filter engine -/

/-- The year-range predicate on a cell: `(df['Year'] >= y0) & (df['Year'] <= y1)`.
A NaN (or non-numeric) year fails the comparison, as in pandas. -/
def cellGeLe (y0 y1 : Int) : Cell → Bool
  | some (.int y) => decide (y0 ≤ y) && decide (y ≤ y1)
  | _ => false

/-- Exact string-equality predicate on a cell (`df[col] == s`); NaN compares
unequal, as in pandas. -/
def cellEqStr (s : String) : Cell → Bool
  | some (.str t) => t == s
  | _ => false

/-- `location_col = 'Country' if 'Country' in df.columns else 'Location'`. -/
def locationCol (f : Frame) : String :=
  if hasCol f "Country" then "Country" else "Location"

/-- One sequential filtering step `fd = fd[p(fd[col])]`: the mask is computed
from column `col` of the current frame and applied to every column. -/
def rowFilter (f : Frame) (p : Cell → Bool) (col : String) : Frame :=
  maskFrame f ((getCol f col).map p)

/-- The filter engine, exactly as the source applies it: year-range mask first,
then the operator equality mask when the Operator column exists and the
selection is not the sentinel "All", then the location equality mask likewise. -/
def filtered_df (f : Frame) (y0 y1 : Int) (op loc : String) : Frame :=
  let f1 := rowFilter f (cellGeLe y0 y1) "Year"
  let f2 := if hasCol f "Operator" && op != "All"
            then rowFilter f1 (cellEqStr op) "Operator" else f1
  if (hasCol f "Country" || hasCol f "Location") && loc != "All"
  then rowFilter f2 (cellEqStr loc) (locationCol f) else f2

/-- The conjunction mask of the claim: pointwise AND of the year-range
constraint, the operator constraint (vacuous when the selection is "All"),
and the location constraint (vacuous when the selection is "All"). -/
def conjMask (f : Frame) (y0 y1 : Int) (op loc : String) : List Bool :=
  let m1 := (getCol f "Year").map (cellGeLe y0 y1)
  let m2 := if op = "All" then List.replicate (nrows f) true
            else (getCol f "Operator").map (cellEqStr op)
  let m3 := if loc = "All" then List.replicate (nrows f) true
            else (getCol f (locationCol f)).map (cellEqStr loc)
  List.zipWith and (List.zipWith and m1 m2) m3

/-! ## Preprocessor -/

/-- Gregorian leap year. -/
def isLeap (y : Int) : Bool :=
  (y % 4 == 0 && y % 100 != 0) || (y % 400 == 0)

/-- Days in a Gregorian month. -/
def daysInMonth (y m : Int) : Int :=
  if m == 2 then (if isLeap y then 29 else 28)
  else if m == 4 || m == 6 || m == 9 || m == 11 then 30
  else 31

/-- Calendar validity of a (year, month, day) combination.  (pandas further
rejects dates outside the Timestamp range; the dataset's years 1908-2023 are
well inside it, so plain Gregorian validity is the model.) -/
def validDate (y m d : Int) : Bool :=
  decide (1 ≤ y) && decide (1 ≤ m) && decide (m ≤ 12) &&
  decide (1 ≤ d) && decide (d ≤ daysInMonth y m)

/-- Per-record calendar composition,
`pd.to_datetime(df[['Year','Month','Day']], errors='coerce')`: any missing or
non-integer component, or an invalid combination, coerces to NaT (`none`). -/
def mkDate : Cell → Cell → Cell → Cell
  | some (.int y), some (.int m), some (.int d) =>
      if validDate y m d then some (.date y m d) else none
  | _, _, _ => none

/-- Pointwise combination of three aligned columns. -/
def zip3With (g : Cell → Cell → Cell → Cell) : Col → Col → Col → Col
  | a :: as, b :: bs, c :: cs => g a b c :: zip3With g as bs cs
  | _, _, _ => []

/-- The derived date column of a frame. -/
def dateCol (f : Frame) : Col :=
  zip3With mkDate (getCol f "Year") (getCol f "Month") (getCol f "Day")

/-- Date derivation: when Year, Month and Day all exist, assign the composed
date column; otherwise leave the frame unchanged. -/
def deriveDate (f : Frame) : Frame :=
  if hasCol f "Year" && hasCol f "Month" && hasCol f "Day"
  then setCol f "Date" (dateCol f) else f

/-- Forward fill of one column, carrying the last non-null value seen. -/
def ffillCol (acc : Cell) : Col → Col
  | [] => []
  | some v :: cs => some v :: ffillCol (some v) cs
  | none :: cs => acc :: ffillCol acc cs

/-- `df.fillna(method='ffill')`: forward fill every column independently. -/
def ffill (f : Frame) : Frame :=
  f.map (fun p => (p.1, ffillCol none p.2))

/-- The preprocessor: derive the date column, then forward-fill all columns. -/
def preprocess_data (f : Frame) : Frame :=
  ffill (deriveDate f)

/-- The nearest preceding non-null value strictly before index `i` of a
column (`none` when every earlier cell is null): the specification's
description of forward fill. -/
def prevNonNull (c : Col) (i : Nat) : Cell :=
  ((c.take i).filterMap id).getLast?

/-! ## Decade derivation -/

/-- `(year // 10) * 10` on one cell; Python's `//` is floor division, and NaN
propagates. -/
def decadeCell : Cell → Cell
  | some (.int y) => some (.int (Int.fdiv y 10 * 10))
  | _ => none

/-- `if 'Decade' not in filtered_df.columns: filtered_df['Decade'] =
(filtered_df['Year'] // 10) * 10`. -/
def addDecade (f : Frame) : Frame :=
  if hasCol f "Decade" then f
  else setCol f "Decade" ((getCol f "Year").map decadeCell)

/-! ## Sorting

An insertion sort parameterised by a boolean "may precede" relation: `x` is
inserted in front of the first element `y` with `le x y`.  With a total `le`
the output is ordered by `le`.  It stands in for the library's `sort_values`,
whose default sort does not specify the relative order of equal keys; this
implementation is one admissible outcome, and no theorem below about a sorted
result depends on which admissible order is produced (only on the multiset of
entries and the `le`-ordering). -/

/-- Insert `x` in front of the first element it may precede. -/
def insertOrd {α : Type} (le : α → α → Bool) (x : α) : List α → List α
  | [] => [x]
  | y :: ys => if le x y then x :: y :: ys else y :: insertOrd le x ys

/-- Stable insertion sort. -/
def sortOrd {α : Type} (le : α → α → Bool) : List α → List α
  | [] => []
  | x :: xs => insertOrd le x (sortOrd le xs)

/-- Descending-by-count comparison on (value, count) pairs. -/
def descCount (a b : Val × Nat) : Bool :=
  decide (b.2 ≤ a.2)

/-! ## value_counts and rankings -/

/-- Accumulating pass for `dedupFirst`: keep a value the first time it is
seen, in input order. -/
def dedupFirstAux (seen : List Val) : List Val → List Val
  | [] => []
  | v :: l => if v ∈ seen then dedupFirstAux seen l
              else v :: dedupFirstAux (v :: seen) l

/-- The distinct elements of a list, each at its first occurrence, in
first-occurrence order (the key order `value_counts` builds before sorting). -/
def dedupFirst (l : List Val) : List Val :=
  dedupFirstAux [] l

/-- `series.value_counts()`: drop the nulls, pair each distinct value with
its frequency, and sort by frequency descending.  pandas performs this sort
with `sort_values` and its default (unstable) kind, so the relative order of
equally frequent values is not specified by the program; to stay executable
this model fixes one admissible descending order (equal counts resolved by
first occurrence).  Every theorem below that mentions a `value_counts` result
is invariant under the choice among admissible orders: it concerns only the
multiset of (value, count) pairs or the descending counts. -/
def valueCounts (c : Col) : List (Val × Nat) :=
  sortOrd descCount
    ((dedupFirst (c.filterMap id)).map (fun v => (v, (c.filterMap id).count v)))

/-- The sum of the counts of a `value_counts` result. -/
def sumCounts (l : List (Val × Nat)) : Nat :=
  (l.map (fun p => p.2)).sum

/-- Ascending order on the `value_counts` index (integer keys compare
numerically); `series.sort_index()` for the year/decade counts. -/
def ascIndex (a b : Val × Nat) : Bool :=
  match a.1, b.1 with
  | .int x, .int y => decide (x ≤ y)
  | _, _ => true

/-- `filtered_df['Year'].value_counts().sort_index()`. -/
def crashes_per_year (f : Frame) : List (Val × Nat) :=
  sortOrd ascIndex (valueCounts (getCol f "Year"))

/-- `filtered_df['Decade'].value_counts().sort_index()` (after the decade
column has been ensured by `addDecade`). -/
def crashes_by_decade (f : Frame) : List (Val × Nat) :=
  sortOrd ascIndex (valueCounts (getCol (addDecade f) "Decade"))

/-- `filtered_df[col].value_counts().head(n)`: the top-n ranking of a
categorical column. -/
def topCategories (f : Frame) (col : String) (n : Nat) : List (Val × Nat) :=
  (valueCounts (getCol f col)).take n

/-- `filtered_df['Operator'].value_counts().head(10)`. -/
def top_operators (f : Frame) : List (Val × Nat) :=
  topCategories f "Operator" 10

/-- `filtered_df[location_col].value_counts().head(10)`. -/
def Top_locations (f : Frame) : List (Val × Nat) :=
  topCategories f (locationCol f) 10

/-! ## Summary metrics -/

/-- `years_span = year_range[1] - year_range[0] + 1`. -/
def years_span (y0 y1 : Int) : Int :=
  y1 - y0 + 1

/-- `avg_per_year = len(filtered_df) / years_span if years_span > 0 else 0`. -/
def avg_per_year (f : Frame) (y0 y1 : Int) : ℚ :=
  if 0 < years_span y0 y1 then (nrows f : ℚ) / (years_span y0 y1 : ℚ) else 0

/-- The numeric content of a cell. -/
def cellInt : Cell → Option Int
  | some (.int i) => some i
  | _ => none

/-- `series.sum()`: pandas sums over the non-null numeric entries. -/
def colSum (c : Col) : Int :=
  (c.filterMap cellInt).sum

/-- `series.mean()`: the mean of the non-null numeric entries, NaN (`none`)
when there are none. -/
def colMean (c : Col) : Option ℚ :=
  match c.filterMap cellInt with
  | [] => none
  | l => some (((l.sum : Int) : ℚ) / (l.length : ℚ))

/-- `filtered_df['Fatalities'].sum()`. -/
def total_fatalities (f : Frame) : Int :=
  colSum (getCol f "Fatalities")

/-- `filtered_df['Fatalities'].mean()`. -/
def avg_fatalities (f : Frame) : Option ℚ :=
  colMean (getCol f "Fatalities")

/-! ## Missing-value report -/

/-- `series.isnull().sum()` for one column: the number of null cells. -/
def nullCount (c : Col) : Nat :=
  c.countP (fun x => x.isNone)

/-- Round half to even (numpy/pandas `.round` tie rule). -/
def roundHalfEven (q : ℚ) : ℤ :=
  if q - (⌊q⌋ : ℚ) = 1 / 2 then (if ⌊q⌋ % 2 = 0 then ⌊q⌋ else ⌊q⌋ + 1)
  else round q

/-- Round to two decimal places. -/
def round2 (q : ℚ) : ℚ :=
  ((roundHalfEven (q * 100) : ℚ)) / 100

/-- One row of the missing-values table. -/
structure MissingRow where
  column : String
  missingCount : Nat
  percentage : ℚ
deriving DecidableEq

/-- Descending order on the per-column null counts for `sort_values(ascending=False)`. -/
def descSnd (a b : String × Nat) : Bool :=
  decide (b.2 ≤ a.2)

/-- The missing-values table: per-column null counts, restricted to the
columns with at least one null, sorted by count descending, each with its
percentage of the view's rows rounded to two decimals. -/
def missing_df (f : Frame) : List MissingRow :=
  (sortOrd descSnd
      ((f.map (fun p => (p.1, nullCount p.2))).filter (fun q => 0 < q.2))).map
    (fun q => ⟨q.1, q.2, round2 (((q.2 : ℚ) / (nrows f : ℚ)) * 100)⟩)

/-! ## Concrete datasets used as evaluation witnesses -/

/-- Witness frame for the filter-engine claim. -/
def fC1 : Frame :=
  [("Year", [some (.int 1990), some (.int 2005), none]),
   ("Operator", [some (.str "A"), some (.str "B"), some (.str "A")])]

/-- Witness frame for date derivation: 2000-04-31 is not a calendar date. -/
def fC3 : Frame :=
  [("Year", [some (.int 2000), some (.int 2000)]),
   ("Month", [some (.int 4), some (.int 4)]),
   ("Day", [some (.int 30), some (.int 31)])]

/-- Counterexample dataset for preprocessor idempotence: record 1 has a null
Year, so on the first pass its date coerces to NaT and the null Year is then
forward-filled; the second pass recomputes the date from the filled Year,
Month and Day and obtains a different (non-null) date. -/
def fC4 : Frame :=
  [("Year", [some (.int 2000), none]),
   ("Month", [some (.int 1), some (.int 3)]),
   ("Day", [some (.int 1), some (.int 15)])]

/-- Witness frame for amended idempotence: Year/Month/Day free of nulls
(the Operator null is forward-filled identically on both passes). -/
def fC4w : Frame :=
  [("Year", [some (.int 2000), some (.int 2001)]),
   ("Month", [some (.int 1), some (.int 3)]),
   ("Day", [some (.int 1), some (.int 15)]),
   ("Operator", [some (.str "A"), none])]

/-- Witness dataset for the empty view: the year filter 2000-2005 excludes
the single 1990 record. -/
def fC5 : Frame :=
  [("Year", [some (.int 1990)]), ("Fatalities", [some (.int 3)])]

/-- Witness frame for the decade invariant. -/
def fC6 : Frame :=
  [("Year", [some (.int 1987)])]

/-- Witness frame for the missing report: Operator has two nulls, Fatalities
one, Year none. -/
def fC9 : Frame :=
  [("Year", [some (.int 1990), some (.int 1991), some (.int 1992)]),
   ("Operator", [none, some (.str "A"), none]),
   ("Fatalities", [some (.int 4), none, some (.int 2)])]

/-- A frame with no nulls at all. -/
def fC9b : Frame :=
  [("Year", [some (.int 1990)]), ("Operator", [some (.str "A")])]

/-! ## Frame access lemmas -/

theorem lookup_mapVal (F : Col → Col) (f : Frame) (n : String) :
    (f.map (fun p => (p.1, F p.2))).lookup n = (f.lookup n).map F := by
  induction f with
  | nil => rfl
  | cons p f ih =>
    by_cases h : n = p.1
    · simp [List.lookup, h]
    · simp [List.lookup, beq_false_of_ne h, ih]

theorem getCol_mapVal (F : Col → Col) (hF : F [] = []) (f : Frame) (n : String) :
    getCol (f.map (fun p => (p.1, F p.2))) n = F (getCol f n) := by
  cases h : f.lookup n <;> simp [getCol, lookup_mapVal, h, hF]

theorem hasCol_mapVal (F : Col → Col) (f : Frame) (n : String) :
    hasCol (f.map (fun p => (p.1, F p.2))) n = hasCol f n := by
  unfold hasCol
  rw [List.any_map]
  rfl

theorem maskList_nil {α : Type} (m : List Bool) : maskList (α := α) m [] = [] := by
  cases m with
  | nil => rfl
  | cons b m => cases b <;> rfl

theorem getCol_maskFrame (f : Frame) (m : List Bool) (n : String) :
    getCol (maskFrame f m) n = maskList m (getCol f n) := by
  exact getCol_mapVal (maskList m) (maskList_nil m) f n

theorem getCol_ffill (f : Frame) (n : String) :
    getCol (ffill f) n = ffillCol none (getCol f n) := by
  exact getCol_mapVal (ffillCol none) rfl f n

theorem lookup_mem {f : Frame} {n : String} {c : Col} (h : f.lookup n = some c) :
    (n, c) ∈ f := by
  induction f with
  | nil => simp [List.lookup] at h
  | cons p f ih =>
    by_cases hp : n = p.1
    · simp only [List.lookup, hp, beq_self_eq_true] at h
      cases p
      simp only [Option.some.injEq] at h
      simp_all
    · simp only [List.lookup, beq_false_of_ne hp] at h
      exact List.mem_cons_of_mem _ (ih h)

theorem hasCol_false_lookup {f : Frame} {n : String} (h : hasCol f n = false) :
    f.lookup n = none := by
  induction f with
  | nil => rfl
  | cons p f ih =>
    simp only [hasCol, List.any_cons, Bool.or_eq_false_iff] at h
    have hne : ¬(n = p.1) := by
      intro he
      simp [he] at h
    simp only [List.lookup, beq_false_of_ne hne]
    exact ih h.2

theorem lookup_replaceCol_ne (f : Frame) (n m : String) (c : Col) (hnm : m ≠ n) :
    (f.map (fun p => if p.1 == n then (n, c) else p)).lookup m = f.lookup m := by
  induction f with
  | nil => rfl
  | cons p f ih =>
    simp only [List.map_cons]
    cases hpn : (p.1 == n) with
    | true =>
      rw [if_pos rfl]
      have hp : p.1 = n := by simpa using hpn
      have hmp : ¬(m = p.1) := by
        rw [hp]
        exact hnm
      simpa [List.lookup, beq_false_of_ne hnm, beq_false_of_ne hmp] using ih
    | false =>
      rw [if_neg (by simp)]
      cases hmp : (m == p.1) with
      | true => simp [List.lookup, hmp]
      | false => simpa [List.lookup, hmp] using ih

theorem lookup_replaceCol_self (f : Frame) (n : String) (c : Col)
    (h : hasCol f n = true) :
    (f.map (fun p => if p.1 == n then (n, c) else p)).lookup n = some c := by
  induction f with
  | nil => simp [hasCol] at h
  | cons p f ih =>
    simp only [List.map_cons]
    cases hpn : (p.1 == n) with
    | true =>
      rw [if_pos rfl]
      simp [List.lookup]
    | false =>
      rw [if_neg (by simp)]
      have hn : ¬(n = p.1) := by
        intro he
        simp [he] at hpn
      simp only [hasCol, List.any_cons, hpn, Bool.false_or] at h
      simpa [List.lookup, beq_false_of_ne hn] using ih h

theorem lookup_append_none {f g : Frame} {n : String} (h : f.lookup n = none) :
    (f ++ g).lookup n = g.lookup n := by
  induction f with
  | nil => rfl
  | cons p f ih =>
    have hne : ¬(n = p.1) := by
      intro he
      simp [List.lookup, he] at h
    simp only [List.lookup, beq_false_of_ne hne] at h
    simp only [List.cons_append, List.lookup, beq_false_of_ne hne]
    exact ih h

theorem lookup_append_some {f g : Frame} {n : String} {v : Col}
    (h : f.lookup n = some v) : (f ++ g).lookup n = some v := by
  induction f with
  | nil => simp [List.lookup] at h
  | cons p f ih =>
    by_cases hp : n = p.1
    · simp only [List.lookup, hp, beq_self_eq_true] at h
      simp [List.cons_append, List.lookup, hp, h]
    · simp only [List.lookup, beq_false_of_ne hp] at h
      simp only [List.cons_append, List.lookup, beq_false_of_ne hp]
      exact ih h

theorem lookup_setCol_self (f : Frame) (n : String) (c : Col) :
    (setCol f n c).lookup n = some c := by
  unfold setCol
  by_cases h : hasCol f n
  · simp only [h, if_true]
    exact lookup_replaceCol_self f n c h
  · simp only [h, if_false]
    rw [if_neg (by simp)]
    rw [lookup_append_none (hasCol_false_lookup (by simpa using h))]
    simp [List.lookup]

theorem lookup_setCol_ne (f : Frame) (n m : String) (c : Col) (hnm : m ≠ n) :
    (setCol f n c).lookup m = f.lookup m := by
  unfold setCol
  by_cases h : hasCol f n
  · simp only [h, if_true]
    exact lookup_replaceCol_ne f n m c hnm
  · simp only [h, if_false]
    rw [if_neg (by simp)]
    cases hm : f.lookup m with
    | some v => exact lookup_append_some hm
    | none =>
      rw [lookup_append_none hm]
      simp [List.lookup, beq_false_of_ne hnm]

theorem getCol_setCol_self (f : Frame) (n : String) (c : Col) :
    getCol (setCol f n c) n = c := by
  simp [getCol, lookup_setCol_self]

theorem getCol_setCol_ne (f : Frame) (n m : String) (c : Col) (hnm : m ≠ n) :
    getCol (setCol f n c) m = getCol f m := by
  simp [getCol, lookup_setCol_ne f n m c hnm]

theorem hasCol_eq_isSome (f : Frame) (n : String) :
    hasCol f n = (f.lookup n).isSome := by
  induction f with
  | nil => rfl
  | cons p f ih =>
    by_cases hp : p.1 = n
    · have : (n == p.1) = true := by simp [hp]
      simp [hasCol, List.lookup, hp]
    · have hn : ¬(n = p.1) := fun he => hp he.symm
      simp only [hasCol, List.lookup, List.any_cons, beq_false_of_ne hp,
        beq_false_of_ne hn, Bool.false_or]
      exact ih

theorem hasCol_setCol_self (f : Frame) (n : String) (c : Col) :
    hasCol (setCol f n c) n = true := by
  rw [hasCol_eq_isSome, lookup_setCol_self]
  rfl

theorem hasCol_setCol_ne (f : Frame) (n m : String) (c : Col) (hnm : m ≠ n) :
    hasCol (setCol f n c) m = hasCol f m := by
  rw [hasCol_eq_isSome, lookup_setCol_ne f n m c hnm, hasCol_eq_isSome]

/-! ## Mask lemmas -/

theorem maskList_sublist {α : Type} (m : List Bool) (c : List α) :
    (maskList m c).Sublist c := by
  induction c generalizing m with
  | nil => rw [maskList_nil]
  | cons x c ih =>
    match m with
    | [] => exact List.nil_sublist _
    | true :: m => exact List.Sublist.cons₂ x (ih m)
    | false :: m => exact List.Sublist.cons x (ih m)

theorem maskList_map {α β : Type} (g : α → β) (m : List Bool) (c : List α) :
    maskList m (c.map g) = (maskList m c).map g := by
  induction c generalizing m with
  | nil => simp [maskList_nil]
  | cons x c ih =>
    match m with
    | [] => rfl
    | true :: m => simp [maskList, ih]
    | false :: m => simp [maskList, ih]

theorem maskList_maskList {α : Type} (m1 m2 : List Bool) (c : List α) :
    maskList (maskList m1 m2) (maskList m1 c) =
      maskList (List.zipWith and m1 m2) c := by
  induction m1 generalizing m2 c with
  | nil => simp [maskList, maskList_nil]
  | cons b m1 ih =>
    match c, m2 with
    | [], _ => simp [maskList_nil]
    | x :: c, [] =>
      cases b <;> simp [maskList, maskList_nil]
    | x :: c, b2 :: m2 =>
      cases b with
      | true =>
        cases b2 with
        | true => simp [maskList, ih]
        | false => simp [maskList, ih]
      | false => simp [maskList, ih]

theorem maskList_length_congr {α β : Type} (m : List Bool) (c1 : List α)
    (c2 : List β) (h : c1.length = c2.length) :
    (maskList m c1).length = (maskList m c2).length := by
  induction m generalizing c1 c2 with
  | nil => simp [maskList]
  | cons b m ih =>
    match c1, c2 with
    | [], [] => simp [maskList_nil]
    | [], y :: c2 => simp at h
    | x :: c1, [] => simp at h
    | x :: c1, y :: c2 =>
      simp only [List.length_cons, Nat.succ.injEq] at h
      cases b with
      | true => simpa [maskList] using ih c1 c2 h
      | false => simpa [maskList] using ih c1 c2 h

theorem zipWith_and_replicate_true {m : List Bool} {n : Nat}
    (h : m.length ≤ n) : List.zipWith and m (List.replicate n true) = m := by
  induction m generalizing n with
  | nil => rfl
  | cons b m ih =>
    match n with
    | 0 => simp at h
    | n + 1 =>
      simp only [List.length_cons, Nat.add_le_add_iff_right] at h
      simp [List.replicate, ih h]

theorem mem_maskList_conj {α : Type} (p : α → Bool) (m2 m3 : List Bool)
    (c : List α) (x : α)
    (hx : x ∈ maskList (List.zipWith and (List.zipWith and (c.map p) m2) m3) c) :
    p x = true := by
  induction c generalizing m2 m3 with
  | nil => simp [maskList_nil] at hx
  | cons y c ih =>
    match m2, m3 with
    | [], _ => simp [maskList] at hx
    | b2 :: m2, [] => simp [maskList] at hx
    | b2 :: m2, b3 :: m3 =>
      simp only [List.map_cons, List.zipWith_cons_cons] at hx
      cases hpy : p y with
      | true =>
        rw [hpy] at hx
        cases b2 <;> cases b3 <;> simp [maskList] at hx
        case true.true =>
          rcases hx with rfl | hx
          · exact hpy
          · exact ih m2 m3 (by simpa using hx)
        all_goals exact ih m2 m3 (by simpa using hx)
      | false =>
        rw [hpy] at hx
        simp only [Bool.false_and, maskList] at hx
        exact ih m2 m3 hx

/-! ## Forward-fill lemmas -/

theorem ffillCol_length (acc : Cell) (c : Col) :
    (ffillCol acc c).length = c.length := by
  induction c generalizing acc with
  | nil => rfl
  | cons x c ih =>
    cases x <;> simp [ffillCol, ih]

theorem ffillCol_idem (acc : Cell) (c : Col) :
    ffillCol acc (ffillCol acc c) = ffillCol acc c := by
  induction c generalizing acc with
  | nil => rfl
  | cons x c ih =>
    cases x with
    | some v => simp [ffillCol, ih]
    | none =>
      cases acc with
      | some w => simp [ffillCol, ih]
      | none => simp [ffillCol, ih]

theorem ffillCol_of_not_none {c : Col} (h : none ∉ c) (acc : Cell) :
    ffillCol acc c = c := by
  induction c generalizing acc with
  | nil => rfl
  | cons x c ih =>
    cases x with
    | some v =>
      simp only [List.mem_cons] at h
      simp [ffillCol, ih (fun hc => h (Or.inr hc))]
    | none => simp at h

theorem getLast?_cons {α : Type} (a : α) (l : List α) :
    (a :: l).getLast? = some (l.getLastD a) := by
  induction l generalizing a with
  | nil => rfl
  | cons b l ih =>
    rw [List.getLast?_cons_cons, ih b, List.getLastD_cons]

/-- Pointwise characterization of forward fill: the value at index `i` is the
last non-null value among the first `i + 1` cells, or the carried accumulator
when there is none. -/
theorem ffillCol_getD (acc : Cell) (c : Col) (i : Nat) (hi : i < c.length) :
    (ffillCol acc c).getD i none =
      match ((c.take (i + 1)).filterMap id).getLast? with
      | some v => some v
      | none => acc := by
  induction c generalizing acc i with
  | nil => simp at hi
  | cons x c ih =>
    cases x with
    | some v =>
      match i with
      | 0 => simp [ffillCol, List.take, List.filterMap]
      | i + 1 =>
        simp only [List.length_cons, Nat.add_lt_add_iff_right] at hi
        have hrec := ih (some v) i hi
        simp only [ffillCol, List.getD_cons_succ, List.take, List.filterMap, id_eq]
        rw [hrec, getLast?_cons, List.getLastD_eq_getLast?]
        cases hl : ((c.take (i + 1)).filterMap id).getLast? with
        | some w => simp [hl]
        | none => simp [hl]
    | none =>
      match i with
      | 0 => simp [ffillCol, List.take, List.filterMap]
      | i + 1 =>
        simp only [List.length_cons, Nat.add_lt_add_iff_right] at hi
        have hrec := ih acc i hi
        simp only [ffillCol, List.getD_cons_succ, List.take, List.filterMap, id_eq]
        rw [hrec]

/-! ## Sorting lemmas -/

theorem insertOrd_perm {α : Type} (le : α → α → Bool) (x : α) (l : List α) :
    (insertOrd le x l).Perm (x :: l) := by
  induction l with
  | nil => exact List.Perm.refl _
  | cons y ys ih =>
    by_cases h : le x y
    · simp [insertOrd, h]
    · simp only [insertOrd, if_neg h]
      exact (ih.cons y).trans (List.Perm.swap x y ys)

theorem sortOrd_perm {α : Type} (le : α → α → Bool) (l : List α) :
    (sortOrd le l).Perm l := by
  induction l with
  | nil => exact List.Perm.refl _
  | cons x xs ih => exact (insertOrd_perm le x (sortOrd le xs)).trans (ih.cons x)

theorem length_sortOrd {α : Type} (le : α → α → Bool) (l : List α) :
    (sortOrd le l).length = l.length :=
  (sortOrd_perm le l).length_eq

theorem mem_insertOrd {α : Type} {le : α → α → Bool} {x b : α} {l : List α} :
    b ∈ insertOrd le x l ↔ b = x ∨ b ∈ l := by
  rw [(insertOrd_perm le x l).mem_iff]
  simp

theorem insertOrd_pairwise {α : Type} {le : α → α → Bool}
    (htot : ∀ a b, le a b = true ∨ le b a = true)
    (htrans : ∀ a b c, le a b = true → le b c = true → le a c = true)
    (x : α) {l : List α}
    (hl : l.Pairwise (fun a b => le a b = true)) :
    (insertOrd le x l).Pairwise (fun a b => le a b = true) := by
  induction l with
  | nil => simp [insertOrd]
  | cons y ys ih =>
    rw [List.pairwise_cons] at hl
    obtain ⟨hy, hys⟩ := hl
    by_cases h : le x y = true
    · simp only [insertOrd, if_pos h]
      refine List.Pairwise.cons ?_ (List.pairwise_cons.mpr ⟨hy, hys⟩)
      intro b hb
      rcases List.mem_cons.mp hb with rfl | hb
      · exact h
      · exact htrans x y b h (hy b hb)
    · have hyx : le y x = true := (htot x y).resolve_left h
      simp only [insertOrd, if_neg h]
      refine List.Pairwise.cons ?_ (ih hys)
      intro b hb
      rcases mem_insertOrd.mp hb with rfl | hb
      · exact hyx
      · exact hy b hb

theorem sortOrd_pairwise {α : Type} {le : α → α → Bool}
    (htot : ∀ a b, le a b = true ∨ le b a = true)
    (htrans : ∀ a b c, le a b = true → le b c = true → le a c = true)
    (l : List α) :
    (sortOrd le l).Pairwise (fun a b => le a b = true) := by
  induction l with
  | nil => simp [sortOrd]
  | cons x xs ih => exact insertOrd_pairwise htot htrans x ih

/-! ## dedupFirst lemmas -/

theorem mem_dedupFirstAux {a : Val} :
    ∀ (l seen : List Val), a ∈ dedupFirstAux seen l ↔ a ∈ l ∧ a ∉ seen := by
  intro l
  induction l with
  | nil => simp [dedupFirstAux]
  | cons v l ih =>
    intro seen
    by_cases hv : v ∈ seen
    · rw [dedupFirstAux, if_pos hv, ih seen]
      constructor
      · exact fun ⟨h1, h2⟩ => ⟨List.mem_cons_of_mem v h1, h2⟩
      · rintro ⟨h1, h2⟩
        rcases List.mem_cons.mp h1 with rfl | h1
        · exact absurd hv h2
        · exact ⟨h1, h2⟩
    · rw [dedupFirstAux, if_neg hv]
      simp only [List.mem_cons, ih (v :: seen)]
      constructor
      · rintro (rfl | ⟨h1, h2⟩)
        · exact ⟨Or.inl rfl, hv⟩
        · exact ⟨Or.inr h1, fun hs => h2 (Or.inr hs)⟩
      · rintro ⟨rfl | h1, h2⟩
        · exact Or.inl rfl
        · by_cases hav : a = v
          · exact Or.inl hav
          · exact Or.inr ⟨h1, by simp [hav, h2]⟩

theorem nodup_dedupFirstAux :
    ∀ (l seen : List Val), (dedupFirstAux seen l).Nodup := by
  intro l
  induction l with
  | nil => simp [dedupFirstAux]
  | cons v l ih =>
    intro seen
    by_cases hv : v ∈ seen
    · rw [dedupFirstAux, if_pos hv]
      exact ih seen
    · rw [dedupFirstAux, if_neg hv]
      refine List.Nodup.cons ?_ (ih (v :: seen))
      intro hc
      exact ((mem_dedupFirstAux l (v :: seen)).mp hc).2 (List.mem_cons_self v seen)

theorem mem_dedupFirst {a : Val} {l : List Val} : a ∈ dedupFirst l ↔ a ∈ l := by
  rw [dedupFirst, mem_dedupFirstAux]
  simp

theorem nodup_dedupFirst (l : List Val) : (dedupFirst l).Nodup :=
  nodup_dedupFirstAux l []

theorem dedupFirst_perm_dedup (l : List Val) : (dedupFirst l).Perm l.dedup := by
  rw [List.perm_ext_iff_of_nodup (nodup_dedupFirst l) (List.nodup_dedup l)]
  intro a
  rw [mem_dedupFirst, List.mem_dedup]

theorem sum_count_dedupFirst (l : List Val) :
    ((dedupFirst l).map (fun v => l.count v)).sum = l.length := by
  have h := (dedupFirst_perm_dedup l).map (fun v => l.count v)
  rw [h.sum_eq]
  exact List.sum_map_count_dedup_eq_length l

/-- The counts of a `value_counts` result add up to the number of non-null
cells of the column. -/
theorem sum_valueCounts (c : Col) :
    sumCounts (valueCounts c) = (c.filterMap id).length := by
  unfold valueCounts sumCounts
  have hperm := (sortOrd_perm descCount
    ((dedupFirst (c.filterMap id)).map
      (fun v => (v, (c.filterMap id).count v)))).map (fun p => p.2)
  rw [hperm.sum_eq, List.map_map]
  exact sum_count_dedupFirst (c.filterMap id)

/-! ## Filter-engine lemmas -/

theorem getCol_length_le_nrows {f : Frame} {n : Nat} (hw : WFrame f n)
    (nm : String) : (getCol f nm).length ≤ nrows f := by
  match f with
  | [] => simp [getCol, List.lookup]
  | p :: f' =>
    cases hl : (p :: f').lookup nm with
    | none => simp [getCol, hl]
    | some c =>
      have hc := hw _ (lookup_mem hl)
      have hp := hw p (List.mem_cons_self p f')
      simp only [getCol, hl, Option.getD_some, nrows]
      rw [hc, hp]

theorem maskFrame_maskFrame (f : Frame) (m m2 : List Bool) :
    maskFrame (maskFrame f m) (maskList m m2) =
      maskFrame f (List.zipWith and m m2) := by
  unfold maskFrame
  rw [List.map_map]
  apply List.map_congr_left
  intro p _
  simp [Function.comp, maskList_maskList]

theorem rowFilter_maskFrame (f : Frame) (m : List Bool) (p : Cell → Bool)
    (col : String) :
    rowFilter (maskFrame f m) p col =
      maskFrame f (List.zipWith and m ((getCol f col).map p)) := by
  unfold rowFilter
  rw [getCol_maskFrame, ← maskList_map, maskFrame_maskFrame]

theorem filtered_df_eq_maskFrame (f : Frame) (n : Nat) (y0 y1 : Int)
    (op loc : String) (hw : WFrame f n)
    (hOp : op ≠ "All" → hasCol f "Operator" = true)
    (hLoc : loc ≠ "All" → (hasCol f "Country" || hasCol f "Location") = true) :
    filtered_df f y0 y1 op loc = maskFrame f (conjMask f y0 y1 op loc) := by
  have hm1len : ((getCol f "Year").map (cellGeLe y0 y1)).length ≤ nrows f := by
    rw [List.length_map]
    exact getCol_length_le_nrows hw "Year"
  have hf1 : rowFilter f (cellGeLe y0 y1) "Year" =
      maskFrame f ((getCol f "Year").map (cellGeLe y0 y1)) := rfl
  by_cases hopAll : op = "All"
  · -- operator constraint vacuous
    by_cases hlocAll : loc = "All"
    · simp only [filtered_df, conjMask, hopAll, hlocAll, if_pos rfl]
      have : ("All" != "All") = false := by simp
      simp only [this, Bool.and_false, if_neg Bool.false_ne_true, hf1, if_true]
      rw [zipWith_and_replicate_true hm1len,
        zipWith_and_replicate_true hm1len]
    · have hcl : (hasCol f "Country" || hasCol f "Location") = true :=
        hLoc hlocAll
      have hbne : (loc != "All") = true := by simp [hlocAll]
      simp only [filtered_df, conjMask, hopAll, if_pos rfl, if_neg hlocAll]
      have : ("All" != "All") = false := by simp
      simp only [this, Bool.and_false, if_neg Bool.false_ne_true, hf1,
        hcl, hbne, Bool.true_and, if_true]
      rw [rowFilter_maskFrame, zipWith_and_replicate_true hm1len]
  · -- operator constraint active
    have hco : hasCol f "Operator" = true := hOp hopAll
    have hbne : (op != "All") = true := by simp [hopAll]
    by_cases hlocAll : loc = "All"
    · simp only [filtered_df, conjMask, if_neg hopAll, hlocAll, if_pos rfl,
        hco, hbne, Bool.true_and, if_true, hf1]
      have : ("All" != "All") = false := by simp
      simp only [this, Bool.and_false, if_neg Bool.false_ne_true, if_true]
      rw [rowFilter_maskFrame]
      have hlen2 : (List.zipWith and ((getCol f "Year").map (cellGeLe y0 y1))
          ((getCol f "Operator").map (cellEqStr op))).length ≤ nrows f := by
        rw [List.length_zipWith]
        exact le_trans (Nat.min_le_left _ _) hm1len
      rw [zipWith_and_replicate_true hlen2]
    · have hcl : (hasCol f "Country" || hasCol f "Location") = true :=
        hLoc hlocAll
      have hbnel : (loc != "All") = true := by simp [hlocAll]
      simp only [filtered_df, conjMask, if_neg hopAll, if_neg hlocAll,
        hco, hbne, Bool.true_and, if_true, hcl, hbnel, hf1]
      rw [rowFilter_maskFrame, rowFilter_maskFrame]

/-! ## Pointwise zip3 lemma -/

theorem zip3With_getD (g : Cell → Cell → Cell → Cell) (a b c : Col) (i : Nat)
    (ha : i < a.length) (hb : i < b.length) (hc : i < c.length) :
    (zip3With g a b c).getD i none =
      g (a.getD i none) (b.getD i none) (c.getD i none) := by
  induction a generalizing b c i with
  | nil => simp at ha
  | cons x a ih =>
    match b, c with
    | [], _ => simp at hb
    | y :: b, [] => simp at hc
    | y :: b, z :: c =>
      match i with
      | 0 => rfl
      | i + 1 =>
        simp only [List.length_cons, Nat.add_lt_add_iff_right] at ha hb hc
        simpa [zip3With] using ih b c i ha hb hc

theorem take_succ_getD {α : Type} (c : List α) (i : Nat) (hi : i < c.length)
    (d : α) : c.take (i + 1) = c.take i ++ [c.getD i d] := by
  induction c generalizing i with
  | nil => simp at hi
  | cons x c ih =>
    match i with
    | 0 => simp
    | i + 1 =>
      simp only [List.length_cons, Nat.add_lt_add_iff_right] at hi
      simp [List.take_succ_cons, ih i hi]

/-! ## Claim theorems -/

/-- C1: for every well-formed preprocessed dataset and filter specification
(with a non-"All" operator or location selection only offered when the
corresponding column exists, as the sidebar does), the filtered view equals
the dataset masked by the pointwise conjunction of the year-range, operator
and location constraints — exactly the records satisfying all active
constraints, in original order (each filtered column is a sublist of the
original column); an empty result is a legal value of the same type. -/
theorem c1_filter_engine (f : Frame) (n : Nat) (y0 y1 : Int) (op loc : String)
    (hw : WFrame f n)
    (hOp : op ≠ "All" → hasCol f "Operator" = true)
    (hLoc : loc ≠ "All" → (hasCol f "Country" || hasCol f "Location") = true) :
    filtered_df f y0 y1 op loc = maskFrame f (conjMask f y0 y1 op loc) ∧
    ∀ nm : String,
      (getCol (filtered_df f y0 y1 op loc) nm).Sublist (getCol f nm) := by
  have heq := filtered_df_eq_maskFrame f n y0 y1 op loc hw hOp hLoc
  refine ⟨heq, fun nm => ?_⟩
  rw [heq, getCol_maskFrame]
  exact maskList_sublist _ _

theorem c1_witness :
    filtered_df fC1 1980 2000 "A" "All" =
      maskFrame fC1 (conjMask fC1 1980 2000 "A" "All") ∧
    ∀ nm : String,
      (getCol (filtered_df fC1 1980 2000 "A" "All") nm).Sublist
        (getCol fC1 nm) :=
  c1_filter_engine fC1 3 1980 2000 "A" "All" (by unfold WFrame fC1; decide)
    (fun _ => by decide) (fun h => absurd rfl h)

/-- C2: the preprocessor's missing-value repair forward-fills every column
uniformly — the filled value at each index is the cell itself when non-null,
and otherwise the nearest preceding non-null value of that column (so a run
of nulls at the start, having no preceding non-null value, remains null). -/
theorem c2_forward_fill :
    (∀ f : Frame, ffill f = f.map (fun p => (p.1, ffillCol none p.2))) ∧
    (∀ (c : Col) (i : Nat), i < c.length →
      (ffillCol none c).getD i none =
        match c.getD i none with
        | some v => some v
        | none => prevNonNull c i) := by
  refine ⟨fun f => rfl, fun c i hi => ?_⟩
  rw [ffillCol_getD none c i hi, take_succ_getD c i hi none]
  cases hx : c.getD i none with
  | some v => simp [List.filterMap_append, List.getLast?_concat]
  | none =>
    simp only [List.filterMap_append, List.filterMap_cons, id_eq,
      List.filterMap_nil, List.append_nil]
    change (match prevNonNull c i with | some v => some v | none => none) =
      prevNonNull c i
    cases prevNonNull c i with
    | some v => rfl
    | none => rfl

theorem c2_witness :
    (2 : Nat) < ([some (.int 7), none, none, none, some (.int 5)] : Col).length ∧
    (ffillCol none [some (.int 7), none, none, none, some (.int 5)]).getD 2 none =
      match ([some (.int 7), none, none, none, some (.int 5)] : Col).getD 2 none with
      | some v => some v
      | none => prevNonNull [some (.int 7), none, none, none, some (.int 5)] 2 :=
  ⟨by decide,
    c2_forward_fill.2 [some (.int 7), none, none, none, some (.int 5)] 2
      (by decide)⟩

/-- C3: when the Year, Month and Day columns all exist, the preprocessor
assigns a date column composed per record from that record's components
alone; a combination that is not a valid calendar date yields a null date
for that record, the composition is total (never an error), and no other
column is affected. -/
theorem c3_date_derivation (f : Frame)
    (h : (hasCol f "Year" && hasCol f "Month" && hasCol f "Day") = true) :
    deriveDate f = setCol f "Date" (dateCol f) ∧
    (∀ i : Nat, i < (getCol f "Year").length → i < (getCol f "Month").length →
      i < (getCol f "Day").length →
      (dateCol f).getD i none =
        mkDate ((getCol f "Year").getD i none) ((getCol f "Month").getD i none)
          ((getCol f "Day").getD i none)) ∧
    (∀ y m d : Int, validDate y m d = false →
      mkDate (some (.int y)) (some (.int m)) (some (.int d)) = none) ∧
    (∀ nm : String, nm ≠ "Date" → getCol (deriveDate f) nm = getCol f nm) := by
  refine ⟨by rw [deriveDate, if_pos h], fun i h1 h2 h3 => ?_, fun y m d hv => ?_,
    fun nm hnm => ?_⟩
  · exact zip3With_getD mkDate _ _ _ i h1 h2 h3
  · simp [mkDate, hv]
  · rw [deriveDate, if_pos h, getCol_setCol_ne f "Date" nm _ hnm]

theorem c3_witness :
    (hasCol fC3 "Year" && hasCol fC3 "Month" && hasCol fC3 "Day") = true ∧
    deriveDate fC3 = setCol fC3 "Date" (dateCol fC3) ∧
    getCol (deriveDate fC3) "Date" =
      [some (.date 2000 4 30), none] :=
  ⟨by decide, (c3_date_derivation fC3 (by decide)).1, by decide⟩

/-! ## Idempotence lemmas -/

theorem ffill_ffill (f : Frame) : ffill (ffill f) = ffill f := by
  unfold ffill
  rw [List.map_map]
  apply List.map_congr_left
  intro p _
  simp [Function.comp, ffillCol_idem]

theorem hasCol_ffill (f : Frame) (nm : String) :
    hasCol (ffill f) nm = hasCol f nm :=
  hasCol_mapVal (ffillCol none) f nm

theorem setCol_key_val (f : Frame) (n : String) (c : Col) :
    ∀ p ∈ setCol f n c, p.1 = n → p.2 = c := by
  intro p hp hpn
  unfold setCol at hp
  by_cases h : hasCol f n
  · rw [if_pos h] at hp
    obtain ⟨q, hq, hmap⟩ := List.mem_map.mp hp
    by_cases hqn : q.1 = n
    · rw [if_pos (by simp [hqn])] at hmap
      rw [← hmap]
    · rw [if_neg (by simp [hqn])] at hmap
      rw [← hmap] at hpn
      exact absurd hpn hqn
  · rw [if_neg h] at hp
    rcases List.mem_append.mp hp with hf | hs
    · exfalso
      apply h
      unfold hasCol
      rw [List.any_eq_true]
      exact ⟨p, hf, by simp [hpn]⟩
    · rw [List.mem_singleton.mp hs]

theorem setCol_of_hasCol (f : Frame) (n : String) (c : Col)
    (h : hasCol f n = true) :
    setCol f n c = f.map (fun q => if q.1 == n then (n, c) else q) := by
  unfold setCol
  rw [if_pos h]

theorem ffill_setCol_cancel (f : Frame) (n : String) (dc : Col) :
    ffill (setCol (ffill (setCol f n dc)) n dc) = ffill (setCol f n dc) := by
  have hcol : hasCol (ffill (setCol f n dc)) n = true := by
    rw [hasCol_ffill]
    exact hasCol_setCol_self f n dc
  rw [setCol_of_hasCol _ n dc hcol]
  show ((((setCol f n dc).map (fun p => (p.1, ffillCol none p.2))).map
      (fun q => if q.1 == n then (n, dc) else q)).map
      (fun p => (p.1, ffillCol none p.2))) =
    (setCol f n dc).map (fun p => (p.1, ffillCol none p.2))
  rw [List.map_map, List.map_map]
  apply List.map_congr_left
  intro p hp
  by_cases hpn : p.1 = n
  · have hv : p.2 = dc := setCol_key_val f n dc p hp hpn
    simp [Function.comp, hpn, hv, ffillCol_idem]
  · simp [Function.comp, beq_false_of_ne hpn, ffillCol_idem]

/-- C4 (counterexample): the preprocessor is not idempotent — on `fC4`
applying it twice differs from applying it once (the Date column changes
from [2000-01-01, 2000-01-01] to [2000-01-01, 2000-03-15]). -/
theorem c4_not_idempotent :
    preprocess_data (preprocess_data fC4) ≠ preprocess_data fC4 := by
  decide

/-- C4 (amended): the preprocessor is idempotent on datasets that lack one of
the Year/Month/Day columns, or whose Year, Month and Day columns contain no
nulls; in general the second pass recomputes the Date column from the
forward-filled Year/Month/Day columns, which can change it. -/
theorem c4_idempotent_amended (f : Frame)
    (h : (hasCol f "Year" && hasCol f "Month" && hasCol f "Day") = false ∨
      (none ∉ getCol f "Year" ∧ none ∉ getCol f "Month" ∧
        none ∉ getCol f "Day")) :
    preprocess_data (preprocess_data f) = preprocess_data f := by
  cases hc : (hasCol f "Year" && hasCol f "Month" && hasCol f "Day") with
  | false =>
    have hd : deriveDate f = f := by
      rw [deriveDate, if_neg (by simp [hc])]
    unfold preprocess_data
    rw [hd]
    have hd2 : deriveDate (ffill f) = ffill f := by
      rw [deriveDate, if_neg (by simp [hasCol_ffill, hc])]
    rw [hd2, ffill_ffill]
  | true =>
    obtain ⟨hY, hM, hD⟩ := h.resolve_left (by simp [hc])
    have hcols : hasCol f "Year" = true ∧ hasCol f "Month" = true ∧
        hasCol f "Day" = true := by
      simpa [Bool.and_eq_true, and_assoc] using hc
    have hd1 : deriveDate f = setCol f "Date" (dateCol f) := by
      rw [deriveDate, if_pos hc]
    unfold preprocess_data
    rw [hd1]
    have hcond : (hasCol (ffill (setCol f "Date" (dateCol f))) "Year" &&
        hasCol (ffill (setCol f "Date" (dateCol f))) "Month" &&
        hasCol (ffill (setCol f "Date" (dateCol f))) "Day") = true := by
      rw [hasCol_ffill, hasCol_ffill, hasCol_ffill,
        hasCol_setCol_ne f "Date" "Year" _ (by decide),
        hasCol_setCol_ne f "Date" "Month" _ (by decide),
        hasCol_setCol_ne f "Date" "Day" _ (by decide)]
      exact hc
    have hd2 : deriveDate (ffill (setCol f "Date" (dateCol f))) =
        setCol (ffill (setCol f "Date" (dateCol f))) "Date"
          (dateCol (ffill (setCol f "Date" (dateCol f)))) := by
      rw [deriveDate, if_pos hcond]
    have hdc : dateCol (ffill (setCol f "Date" (dateCol f))) = dateCol f := by
      unfold dateCol
      rw [getCol_ffill, getCol_ffill, getCol_ffill,
        getCol_setCol_ne f "Date" "Year" _ (by decide),
        getCol_setCol_ne f "Date" "Month" _ (by decide),
        getCol_setCol_ne f "Date" "Day" _ (by decide),
        ffillCol_of_not_none hY, ffillCol_of_not_none hM,
        ffillCol_of_not_none hD]
    rw [hd2, hdc]
    exact ffill_setCol_cancel f "Date" (dateCol f)

theorem c4_idempotent_witness :
    preprocess_data (preprocess_data fC4w) = preprocess_data fC4w :=
  c4_idempotent_amended fC4w (Or.inr ⟨by decide, by decide, by decide⟩)

/-! ## Empty-view lemmas -/

theorem cols_len_zero_of_nrows_zero (df : Frame) (n : Nat) (y0 y1 : Int)
    (op loc : String) (hw : WFrame df n)
    (hOp : op ≠ "All" → hasCol df "Operator" = true)
    (hLoc : loc ≠ "All" → (hasCol df "Country" || hasCol df "Location") = true)
    (hEmpty : nrows (filtered_df df y0 y1 op loc) = 0) :
    ∀ p ∈ filtered_df df y0 y1 op loc, p.2.length = 0 := by
  have heq := filtered_df_eq_maskFrame df n y0 y1 op loc hw hOp hLoc
  rw [heq] at hEmpty ⊢
  match df with
  | [] => simp [maskFrame]
  | p0 :: df' =>
    intro p hp
    obtain ⟨q, hq, hmap⟩ := List.mem_map.mp hp
    have hlen : (maskList (conjMask (p0 :: df') y0 y1 op loc) q.2).length =
        (maskList (conjMask (p0 :: df') y0 y1 op loc) p0.2).length :=
      maskList_length_congr _ _ _ (by rw [hw q hq, hw p0 (List.mem_cons_self p0 df')])
    have hnr : (maskList (conjMask (p0 :: df') y0 y1 op loc) p0.2).length = 0 := by
      simpa [maskFrame, nrows] using hEmpty
    rw [← hmap]
    simpa [hlen] using hnr

theorem getCol_nil_of_nrows_zero (df : Frame) (n : Nat) (y0 y1 : Int)
    (op loc : String) (hw : WFrame df n)
    (hOp : op ≠ "All" → hasCol df "Operator" = true)
    (hLoc : loc ≠ "All" → (hasCol df "Country" || hasCol df "Location") = true)
    (hEmpty : nrows (filtered_df df y0 y1 op loc) = 0) (nm : String) :
    getCol (filtered_df df y0 y1 op loc) nm = [] := by
  cases hl : (filtered_df df y0 y1 op loc).lookup nm with
  | none => simp [getCol, hl]
  | some c =>
    have hc := cols_len_zero_of_nrows_zero df n y0 y1 op loc hw hOp hLoc hEmpty
      _ (lookup_mem hl)
    simp only [getCol, hl, Option.getD_some]
    exact List.length_eq_zero.mp hc

/-- C5: on an empty filtered view (a filter specification excluding every
record) the summary metrics are total: totalRecords is 0, averagePerYear is
0 (the year-span division is guarded), the fatalities sum is 0, the
fatalities mean is NaN rather than an error, and the per-year counts and the
missing-value report are empty — nothing raises. -/
theorem c5_empty_view (df : Frame) (n : Nat) (y0 y1 : Int) (op loc : String)
    (hw : WFrame df n)
    (hOp : op ≠ "All" → hasCol df "Operator" = true)
    (hLoc : loc ≠ "All" → (hasCol df "Country" || hasCol df "Location") = true)
    (hEmpty : nrows (filtered_df df y0 y1 op loc) = 0) :
    nrows (filtered_df df y0 y1 op loc) = 0 ∧
    avg_per_year (filtered_df df y0 y1 op loc) y0 y1 = 0 ∧
    total_fatalities (filtered_df df y0 y1 op loc) = 0 ∧
    avg_fatalities (filtered_df df y0 y1 op loc) = none ∧
    crashes_per_year (filtered_df df y0 y1 op loc) = [] ∧
    missing_df (filtered_df df y0 y1 op loc) = [] := by
  have hnil := getCol_nil_of_nrows_zero df n y0 y1 op loc hw hOp hLoc hEmpty
  have hcols := cols_len_zero_of_nrows_zero df n y0 y1 op loc hw hOp hLoc hEmpty
  refine ⟨hEmpty, ?_, ?_, ?_, ?_, ?_⟩
  · unfold avg_per_year
    rw [hEmpty]
    by_cases hs : 0 < years_span y0 y1
    · simp [hs]
    · simp [hs]
  · unfold total_fatalities colSum
    rw [hnil "Fatalities"]
    rfl
  · unfold avg_fatalities colMean
    rw [hnil "Fatalities"]
    rfl
  · unfold crashes_per_year valueCounts
    rw [hnil "Year"]
    rfl
  · unfold missing_df
    have hfil : ((filtered_df df y0 y1 op loc).map
        (fun p => (p.1, nullCount p.2))).filter (fun q => 0 < q.2) = [] := by
      rw [List.filter_eq_nil_iff]
      intro q hq
      obtain ⟨p, hp, hmap⟩ := List.mem_map.mp hq
      have hle : nullCount p.2 ≤ p.2.length := List.countP_le_length _
      rw [hcols p hp] at hle
      have h0 : nullCount p.2 = 0 := by omega
      rw [← hmap]
      simp [h0]
    rw [hfil]
    rfl

theorem c5_witness :
    nrows (filtered_df fC5 2000 2005 "All" "All") = 0 ∧
    avg_per_year (filtered_df fC5 2000 2005 "All" "All") 2000 2005 = 0 ∧
    total_fatalities (filtered_df fC5 2000 2005 "All" "All") = 0 ∧
    avg_fatalities (filtered_df fC5 2000 2005 "All" "All") = none ∧
    crashes_per_year (filtered_df fC5 2000 2005 "All" "All") = [] ∧
    missing_df (filtered_df fC5 2000 2005 "All" "All") = [] :=
  c5_empty_view fC5 1 2000 2005 "All" "All" (by unfold WFrame fC5; decide)
    (fun h => absurd rfl h) (fun h => absurd rfl h) (by decide)

theorem getD_map_of_lt {α β : Type} (g : α → β) (c : List α) (i : Nat)
    (hi : i < c.length) (d : α) (d2 : β) :
    (c.map g).getD i d2 = g (c.getD i d) := by
  induction c generalizing i with
  | nil => simp at hi
  | cons x c ih =>
    match i with
    | 0 => rfl
    | i + 1 =>
      simp only [List.length_cons, Nat.add_lt_add_iff_right] at hi
      simpa using ih i hi

/-- C6: on a view without a Decade column the derived decade at every record
with year `y` equals `(y // 10) * 10` (floor division), which is a multiple
of 10 and at most `y`. -/
theorem c6_decade_invariant (f : Frame) (h : hasCol f "Decade" = false)
    (i : Nat) (y : Int)
    (hy : (getCol f "Year").getD i none = some (.int y)) :
    (getCol (addDecade f) "Decade").getD i none =
      some (.int (Int.fdiv y 10 * 10)) ∧
    (Int.fdiv y 10 * 10) % 10 = 0 ∧ Int.fdiv y 10 * 10 ≤ y := by
  have hi : i < (getCol f "Year").length := by
    by_contra hcon
    rw [List.getD_eq_default _ _ (le_of_not_lt hcon)] at hy
    exact Option.noConfusion hy
  refine ⟨?_, ?_, ?_⟩
  · rw [addDecade, if_neg (by simp [h]), getCol_setCol_self,
      getD_map_of_lt decadeCell _ i hi none none, hy]
    rfl
  · rw [Int.fdiv_eq_ediv _ (by norm_num)]
    omega
  · rw [Int.fdiv_eq_ediv _ (by norm_num)]
    omega

theorem c6_witness :
    (getCol (addDecade fC6) "Decade").getD 0 none =
      some (.int (Int.fdiv 1987 10 * 10)) ∧
    (Int.fdiv 1987 10 * 10) % 10 = 0 ∧ Int.fdiv 1987 10 * 10 ≤ 1987 :=
  c6_decade_invariant fC6 (by decide) 0 1987 (by decide)

/-! ## Year/decade count lemmas -/

theorem sumCounts_sortOrd (le : Val × Nat → Val × Nat → Bool)
    (l : List (Val × Nat)) : sumCounts (sortOrd le l) = sumCounts l := by
  unfold sumCounts
  exact ((sortOrd_perm le l).map _).sum_eq

theorem cellGeLe_int {y0 y1 : Int} {x : Cell} (h : cellGeLe y0 y1 x = true) :
    ∃ y : Int, x = some (.int y) := by
  match x with
  | some (.int y) => exact ⟨y, rfl⟩
  | some (.str s) => simp [cellGeLe] at h
  | some (.date a b c) => simp [cellGeLe] at h
  | none => simp [cellGeLe] at h

theorem filterMap_len_of_all_int (c : Col)
    (h : ∀ x ∈ c, ∃ y : Int, x = some (.int y)) :
    (c.filterMap id).length = c.length ∧
    ((c.map decadeCell).filterMap id).length = c.length := by
  induction c with
  | nil => simp
  | cons x c ih =>
    obtain ⟨y, rfl⟩ := h x (List.mem_cons_self x c)
    have ih' := ih (fun z hz => h z (List.mem_cons_of_mem _ hz))
    constructor
    · simp only [List.filterMap_cons, id_eq, List.length_cons, ih'.1]
    · simp only [List.map_cons, decadeCell, List.filterMap_cons, id_eq,
        List.length_cons, ih'.2]

/-- C7: for every filtered view (of a dataset without a pre-existing Decade
column), the counts by decade and the counts by year sum to the same total —
decade grouping neither loses nor duplicates records. -/
theorem c7_decade_year_sums (df : Frame) (n : Nat) (y0 y1 : Int)
    (op loc : String) (hw : WFrame df n)
    (hOp : op ≠ "All" → hasCol df "Operator" = true)
    (hLoc : loc ≠ "All" → (hasCol df "Country" || hasCol df "Location") = true)
    (hnd : hasCol df "Decade" = false) :
    sumCounts (crashes_by_decade (filtered_df df y0 y1 op loc)) =
      sumCounts (crashes_per_year (filtered_df df y0 y1 op loc)) := by
  have heq := filtered_df_eq_maskFrame df n y0 y1 op loc hw hOp hLoc
  have hndv : hasCol (filtered_df df y0 y1 op loc) "Decade" = false := by
    rw [heq]
    unfold maskFrame
    rw [hasCol_mapVal]
    exact hnd
  have hdec : getCol (addDecade (filtered_df df y0 y1 op loc)) "Decade" =
      (getCol (filtered_df df y0 y1 op loc) "Year").map decadeCell := by
    rw [addDecade, if_neg (by simp [hndv]), getCol_setCol_self]
  have hall : ∀ x ∈ getCol (filtered_df df y0 y1 op loc) "Year",
      ∃ y : Int, x = some (.int y) := by
    intro x hx
    rw [heq, getCol_maskFrame] at hx
    simp only [conjMask] at hx
    exact cellGeLe_int (mem_maskList_conj (cellGeLe y0 y1) _ _ _ x hx)
  have hL := filterMap_len_of_all_int _ hall
  unfold crashes_by_decade crashes_per_year
  rw [sumCounts_sortOrd, sumCounts_sortOrd, sum_valueCounts, sum_valueCounts,
    hdec, hL.1, hL.2]

theorem c7_witness :
    sumCounts (crashes_by_decade (filtered_df fC1 1980 2010 "All" "All")) =
      sumCounts (crashes_per_year (filtered_df fC1 1980 2010 "All" "All")) :=
  c7_decade_year_sums fC1 3 1980 2010 "All" "All" (by unfold WFrame fC1; decide)
    (fun h => absurd rfl h) (fun h => absurd rfl h) (by decide)

/-- C9: the missing-value report has one entry per column with at least one
null in the view — positive counts, percentage `count / len * 100` rounded
to two decimals, entries a permutation of exactly the null-bearing columns
sorted by descending count — and is empty when no column has a null. -/
theorem c9_missing_report (f : Frame) :
    (∀ r ∈ missing_df f, 0 < r.missingCount ∧
      r.percentage =
        round2 (((r.missingCount : ℚ) / (nrows f : ℚ)) * 100) ∧
      ∃ c : Col, (r.column, c) ∈ f ∧ nullCount c = r.missingCount) ∧
    ((missing_df f).map (fun r => r.missingCount)).Pairwise
      (fun a b => b ≤ a) ∧
    ((missing_df f).map (fun r => (r.column, r.missingCount))).Perm
      ((f.map (fun p => (p.1, nullCount p.2))).filter (fun q => 0 < q.2)) ∧
    ((∀ p ∈ f, nullCount p.2 = 0) → missing_df f = []) := by
  have htot : ∀ a b : String × Nat, descSnd a b = true ∨ descSnd b a = true := by
    intro a b
    simp only [descSnd, decide_eq_true_eq]
    omega
  have htrans : ∀ a b c : String × Nat, descSnd a b = true →
      descSnd b c = true → descSnd a c = true := by
    intro a b c
    simp only [descSnd, decide_eq_true_eq]
    omega
  unfold missing_df
  refine ⟨?_, ?_, ?_, ?_⟩
  · intro r hr
    obtain ⟨q, hq, hbuild⟩ := List.mem_map.mp hr
    have hqL := (sortOrd_perm descSnd _).mem_iff.mp hq
    obtain ⟨hqm, hqpos⟩ := List.mem_filter.mp hqL
    obtain ⟨p, hpf, hpq⟩ := List.mem_map.mp hqm
    have hpos : 0 < q.2 := by simpa using hqpos
    refine ⟨?_, ?_, ⟨p.2, ?_, ?_⟩⟩
    · rw [← hbuild]
      exact hpos
    · rw [← hbuild]
    · rw [← hbuild]
      show (q.1, p.2) ∈ f
      rw [← hpq]
      exact hpf
    · rw [← hbuild]
      show nullCount p.2 = q.2
      rw [← hpq]
  · rw [List.map_map, List.pairwise_map]
    have hs := sortOrd_pairwise htot htrans
      ((f.map (fun p => (p.1, nullCount p.2))).filter (fun q => 0 < q.2))
    refine hs.imp ?_
    intro a b h
    simpa [descSnd] using h
  · rw [List.map_map]
    have hmap : ((sortOrd descSnd
        ((f.map (fun p => (p.1, nullCount p.2))).filter
          (fun q => 0 < q.2))).map
        ((fun r : MissingRow => (r.column, r.missingCount)) ∘
          (fun q : String × Nat =>
            (⟨q.1, q.2, round2 (((q.2 : ℚ) / (nrows f : ℚ)) * 100)⟩ :
              MissingRow)))) =
        sortOrd descSnd
          ((f.map (fun p => (p.1, nullCount p.2))).filter
            (fun q => 0 < q.2)) := by
      conv_rhs => rw [← List.map_id (sortOrd descSnd
        ((f.map (fun p => (p.1, nullCount p.2))).filter (fun q => 0 < q.2)))]
      apply List.map_congr_left
      intro q _
      rfl
    rw [hmap]
    exact sortOrd_perm descSnd _
  · intro hall
    have hLnil : (f.map (fun p => (p.1, nullCount p.2))).filter
        (fun q => 0 < q.2) = [] := by
      rw [List.filter_eq_nil_iff]
      intro q hq
      obtain ⟨p, hp, hpq⟩ := List.mem_map.mp hq
      rw [← hpq]
      simp [hall p hp]
    rw [hLnil]
    rfl

theorem c9_witness :
    (missing_df fC9).map (fun r => (r.column, r.missingCount)) =
      [("Operator", 2), ("Fatalities", 1)] ∧
    missing_df fC9b = [] :=
  ⟨by decide, (c9_missing_report fC9b).2.2.2 (by decide)⟩

/-- C10 (implicit): the top-n rankings count only non-null cells — every
ranked key is a non-null value occurring in the column with its count taken
over the non-null cells, and the total of all `value_counts` frequencies is
the number of non-null cells, so records with a null in the ranked column
contribute to no entry. -/
theorem c10_rankings_nonnull (f : Frame) (col : String) (nn : Nat) :
    (∀ p ∈ topCategories f col nn,
      p.1 ∈ (getCol f col).filterMap id ∧
      p.2 = ((getCol f col).filterMap id).count p.1) ∧
    sumCounts (valueCounts (getCol f col)) =
      ((getCol f col).filterMap id).length := by
  refine ⟨?_, sum_valueCounts _⟩
  intro p hp
  have h1 : p ∈ valueCounts (getCol f col) :=
    (List.take_sublist nn _).subset hp
  unfold valueCounts at h1
  have h2 := (sortOrd_perm descCount _).mem_iff.mp h1
  obtain ⟨v, hv, hvp⟩ := List.mem_map.mp h2
  rw [← hvp]
  exact ⟨mem_dedupFirst.mp hv, rfl⟩

theorem c10_witness :
    ((.str "A", 2) : Val × Nat) ∈ topCategories fC1 "Operator" 10 ∧
    ((.str "A" : Val) ∈ (getCol fC1 "Operator").filterMap id ∧
      2 = ((getCol fC1 "Operator").filterMap id).count (.str "A")) :=
  ⟨by decide,
    (c10_rankings_nonnull fC1 "Operator" 10).1 (.str "A", 2) (by decide)⟩
